import Mathlib

/-!
Verification development for the YT-Clipper adaptive reframing engine
(`backend/reels_processor.py`): face-timeline segmentation, segment
refinement, crop geometry, panning trajectories and conversion-path
cleanup, shallowly embedded over ℤ/ℚ/ℝ.  Times are rationals
(frame index over fps), pixel quantities are integers, and Python's
`int()` / `//` are modelled by truncation / floor division.
-/

namespace ReelsProc

/- ============================================================
   Numeric helpers
   ============================================================ -/

/-- Python `int()` applied to a rational value: truncation toward zero. -/
def pyInt (q : ℚ) : ℤ := Int.tdiv q.num q.den

/-- Python `int()` applied to a real value: truncation toward zero. -/
noncomputable def pyIntR (x : ℝ) : ℤ := if x < 0 then ⌈x⌉ else ⌊x⌋

/-- `max(0, min(v, bound))`: the in-bounds clamp used on crop positions. -/
def clampCrop (v bound : ℤ) : ℤ := max 0 (min v bound)

/- ============================================================
   Data model: raw detections and stored face observations
   (`detect_face_segments`, lines 344-401 of reels_processor.py)
   ============================================================ -/

/-- One raw bounding box coming back from the face detector:
`bbox.origin_x/origin_y/width/height` plus the top category score. -/
structure Detection where
  origin_x : ℤ
  origin_y : ℤ
  width : ℤ
  height : ℤ
  score : ℚ

/-- A stored face observation: the dict
`{'topLeft': .., 'rightBottom': .., 'width': .., 'height': .., 'confidence': ..}`. -/
structure FaceObs where
  topLeft_x : ℤ
  topLeft_y : ℤ
  rightBottom_x : ℤ
  rightBottom_y : ℤ
  width : ℤ
  height : ℤ
  confidence : ℚ

/-- `min_face_size = int(height * 0.08)`. -/
def minFaceSize (height : ℤ) : ℤ := pyInt ((height : ℚ) * (8 / 100))

/-- `edge_margin = int(width * 0.05)`. -/
def edgeMargin (width : ℤ) : ℤ := pyInt ((width : ℚ) * (5 / 100))

/-- The per-detection filters of `detect_face_segments`: minimum size, edge
margin on the horizontal center, confidence at least 0.6, and aspect ratio
(w/h, 0 when h = 0) inside [0.6, 1.4]. -/
def passesFilters (width height : ℤ) (d : Detection) : Bool :=
  let face_center_x := d.origin_x + Int.fdiv d.width 2
  let aspect : ℚ := if 0 < d.height then (d.width : ℚ) / (d.height : ℚ) else 0
  !(d.width < minFaceSize height || d.height < minFaceSize height) &&
  !(face_center_x < edgeMargin width || width - edgeMargin width < face_center_x) &&
  !(d.score < (6 / 10 : ℚ)) &&
  !(aspect < (6 / 10 : ℚ) || (14 / 10 : ℚ) < aspect)

/-- Build the stored observation dict from a surviving detection. -/
def toFaceObs (d : Detection) : FaceObs :=
  { topLeft_x := d.origin_x
    topLeft_y := d.origin_y
    rightBottom_x := d.origin_x + d.width
    rightBottom_y := d.origin_y + d.height
    width := d.width
    height := d.height
    confidence := d.score }

/-- `face_positions` for one frame: the filtered, converted detections. -/
def filterFrame (width height : ℤ) (dets : List Detection) : List FaceObs :=
  (dets.filter (passesFilters width height)).map toFaceObs

/-- `size_ratio = min(w1, w2) / max(w1, w2)`. -/
def sizeRatio (w1 w2 : ℤ) : ℚ := ((min w1 w2 : ℤ) : ℚ) / ((max w1 w2 : ℤ) : ℚ)

/-- The per-frame face count after the dual-detection size validation:
exactly two surviving faces with `size_ratio < 0.5` count as one. -/
def frameFaceCount (faces : List FaceObs) : ℕ :=
  match faces with
  | [f1, f2] => if sizeRatio f1.width f2.width < 1 / 2 then 1 else 2
  | _ => faces.length

/- ============================================================
   Face timeline segmentation (`detect_face_segments`)
   ============================================================ -/

/-- One segment dict: face count, time range, frame range and the collected
per-frame observation lists. -/
structure Segment (β : Type) where
  face_count : ℕ
  start_time : ℚ
  end_time : ℚ
  start_frame : ℕ
  end_frame : ℕ
  faces : List (List β)

/-- A segment that has been opened but not yet closed (no end yet). -/
structure OpenSeg (β : Type) where
  face_count : ℕ
  start_time : ℚ
  start_frame : ℕ
  faces : List (List β)

/-- `'faces': [face_positions] if face_positions else []`. -/
def initFaces {β : Type} (obs : List β) : List (List β) :=
  if obs.isEmpty then [] else [obs]

/-- Close the open segment at a timestamp / frame index. -/
def OpenSeg.close {β : Type} (cur : OpenSeg β) (t : ℚ) (i : ℕ) : Segment β :=
  { face_count := cur.face_count
    start_time := cur.start_time
    end_time := t
    start_frame := cur.start_frame
    end_frame := i
    faces := cur.faces }

/-- One sampled frame handed to the segmentation loop: timestamp, frame
index, face count (after the dual-size demotion) and the filtered
observations of that frame. -/
structure Sample (β : Type) where
  t : ℚ
  idx : ℕ
  count : ℕ
  obs : List β

/-- Open a segment on a sample. -/
def openOn {β : Type} (s : Sample β) : OpenSeg β :=
  ⟨s.count, s.t, s.idx, initFaces s.obs⟩

/-- The body of the `while frame_idx < total_frames` loop of
`detect_face_segments`, with the final close at `total_frames / fps`. -/
def segLoop {β : Type} (cur : OpenSeg β) :
    List (Sample β) → ℚ → ℕ → List (Segment β)
  | [], dur, durFrame => [cur.close dur durFrame]
  | s :: rest, dur, durFrame =>
    if s.count = cur.face_count then
      segLoop { cur with faces := cur.faces ++ initFaces s.obs } rest dur durFrame
    else
      cur.close s.t s.idx :: segLoop (openOn s) rest dur durFrame

/-- Segment a stream of samples; `[]` when no frame was sampled. -/
def segmentSamples {β : Type} (samples : List (Sample β)) (dur : ℚ)
    (durFrame : ℕ) : List (Segment β) :=
  match samples with
  | [] => []
  | s :: rest => segLoop (openOn s) rest dur durFrame

/-- Frame indices visited by the loop starting at `i`:
`i, i + n, i + 2n, ...` while below `totalFrames` (empty when `n = 0`). -/
def sampleFramesAux (totalFrames n i : ℕ) : List ℕ :=
  if h : i < totalFrames ∧ 0 < n then i :: sampleFramesAux totalFrames n (i + n)
  else []
termination_by totalFrames - i
decreasing_by omega

/-- The sampled frame indices `0, n, 2n, ...` below `totalFrames`. -/
def sampleFrames (totalFrames n : ℕ) : List ℕ := sampleFramesAux totalFrames n 0

/-- The sample produced for frame `i` from the raw detection stream. -/
def frameSample (det : ℕ → List Detection) (W H : ℤ) (fps : ℚ) (i : ℕ) :
    Sample FaceObs :=
  let obs := filterFrame W H (det i)
  ⟨(i : ℚ) / fps, i, frameFaceCount obs, obs⟩

/-- `detect_face_segments`: sample every `n`-th frame of the detection
stream, filter, validate the dual-face size, and segment on face-count
changes; the last segment closes at `total_frames / fps`. -/
def detect_face_segments (det : ℕ → List Detection) (W H : ℤ)
    (totalFrames n : ℕ) (fps : ℚ) : List (Segment FaceObs) :=
  segmentSamples ((sampleFrames totalFrames n).map (frameSample det W H fps))
    ((totalFrames : ℚ) / fps) totalFrames

/- ============================================================
   The partition predicate and the covered span
   ============================================================ -/

/-- `coversFrom lo segs hi`: the segments tile `[lo, hi)` left to right —
each starts where the previous ended, each is nonempty, the last ends at
`hi`. -/
def coversFrom {β : Type} (lo : ℚ) : List (Segment β) → ℚ → Prop
  | [], hi => lo = hi
  | s :: rest, hi => s.start_time = lo ∧ lo < s.end_time ∧ coversFrom s.end_time rest hi

/-- A nonempty list of segments partitioning `[lo, hi)`. -/
def IsPartition {β : Type} (segs : List (Segment β)) (lo hi : ℚ) : Prop :=
  segs ≠ [] ∧ coversFrom lo segs hi

/-- The union of the half-open time spans of a segment list. -/
def spanUnion {β : Type} (segs : List (Segment β)) : Set ℚ :=
  segs.foldr (fun s acc => Set.Ico s.start_time s.end_time ∪ acc) ∅

/-- Duration of a segment. -/
def segDur {β : Type} (s : Segment β) : ℚ := s.end_time - s.start_time

/- ============================================================
   Segment refinement (`_merge_segments`, lines 1518-1575)
   ============================================================ -/

/-- Fold a segment into its predecessor: extend `end_time` / `end_frame`
and append the observation lists. -/
def extendSeg {β : Type} (p s : Segment β) : Segment β :=
  { p with
    end_time := s.end_time
    end_frame := s.end_frame
    faces := p.faces ++ s.faces }

/-- First pass of `_merge_segments`: drop segments shorter than 1.0 s by
folding them into the previously kept segment.  `pending` is the last kept
segment; a segment is kept when it lasts at least 1.0 s or is the final
one, and the very first segment is always kept (there is nothing to fold
it into). -/
def filterShortAux {β : Type} (pending : Segment β) :
    List (Segment β) → List (Segment β)
  | [] => [pending]
  | seg :: rest =>
    if 1 ≤ segDur seg ∨ rest.isEmpty then pending :: filterShortAux seg rest
    else filterShortAux (extendSeg pending seg) rest

/-- Second pass of `_merge_segments`: merge adjacent segments that share a
face count. -/
def mergeSameAux {β : Type} (current : Segment β) :
    List (Segment β) → List (Segment β)
  | [] => [current]
  | seg :: rest =>
    if seg.face_count = current.face_count then
      mergeSameAux (extendSeg current seg) rest
    else current :: mergeSameAux seg rest

/-- `_merge_segments`: the short-segment fold followed by the equal-count
merge. -/
def merge_segments {β : Type} : List (Segment β) → List (Segment β)
  | [] => []
  | s :: rest =>
    match filterShortAux s rest with
    | [] => []
    | t :: rest2 => mergeSameAux t rest2

/-- Modelled from the spec: the refiner as §4.2 words it — first merge
adjacent equal-count segments, then fold every sub-1.0 s segment into its
predecessor with only the first segment exempt (no exemption for the last
one).  Used to compare the spec's stated pass order with the code's. -/
def specFoldShortAux {β : Type} (pending : Segment β) :
    List (Segment β) → List (Segment β)
  | [] => [pending]
  | seg :: rest =>
    if 1 ≤ segDur seg then pending :: specFoldShortAux seg rest
    else specFoldShortAux (extendSeg pending seg) rest

/-- Modelled from the spec: merge-equal-counts first, then fold short
segments into predecessors (first segment kept as-is). -/
def spec_order_refine {β : Type} (segs : List (Segment β)) : List (Segment β) :=
  match segs with
  | [] => []
  | s :: rest =>
    match mergeSameAux s rest with
    | [] => []
    | t :: rest2 => specFoldShortAux t rest2

/- ============================================================
   Crop geometry (`detect_speaker_position`,
   `_process_dual_face_crop`, `_get_default_crop_position`)
   ============================================================ -/

/-- A crop window in source pixel space. -/
structure Rect where
  x : ℤ
  y : ℤ
  width : ℤ
  height : ℤ

/-- The `'mode'` field of a crop-parameter dict. -/
inductive CropMode
  | single
  | dual
deriving DecidableEq

/-- The crop-parameter dict returned by the geometry engine: either a
single crop (with its `face_detected` flag) or the dual split-screen
geometry with its scale/output sizes. -/
inductive CropResult
  | singleCrop (r : Rect) (face_detected : Bool)
  | dualCrop (left_face right_face : Rect)
      (scale_width scale_height output_width output_height : ℤ)

/-- The mode tag of a crop result. -/
def CropResult.mode : CropResult → CropMode
  | .singleCrop _ _ => .single
  | .dualCrop _ _ _ _ _ _ => .dual

/-- The `position` argument of `_get_default_crop_position`. -/
inductive DefaultPos
  | left
  | center
  | right

/-- `_get_default_crop_position`: fixed 9:16 crop at the left/center/right
of the frame, clamped into bounds. -/
def get_default_crop_position (width height : ℤ) (position : DefaultPos) :
    CropResult :=
  let crop_height := height
  let crop_width := pyInt ((height : ℚ) * 9 / 16)
  let crop_x0 : ℤ :=
    match position with
    | .left => Int.fdiv width 4 - Int.fdiv crop_width 2
    | .right => Int.fdiv (width * 3) 4 - Int.fdiv crop_width 2
    | .center => Int.fdiv (width - crop_width) 2
  .singleCrop ⟨clampCrop crop_x0 (width - crop_width), 0, crop_width, crop_height⟩ false

/-- The averaged, padded face box of `calculate_face_crop`:
`Box.LT = Face.LT - (width, height/2)`, `Box.RB = Face.RB + (width, height*0.75)`. -/
structure FaceCropInfo where
  box_lt_x : ℤ
  box_lt_y : ℤ
  box_width : ℤ
  box_height : ℤ
  center_x : ℚ
  avg_width : ℚ
  avg_height : ℚ

/-- `calculate_face_crop(faces)`. -/
def calculate_face_crop (faces : List FaceObs) : FaceCropInfo :=
  let n : ℚ := (faces.length : ℚ)
  let tl_x := ((faces.map fun f => (f.topLeft_x : ℚ)).sum) / n
  let tl_y := ((faces.map fun f => (f.topLeft_y : ℚ)).sum) / n
  let rb_x := ((faces.map fun f => (f.rightBottom_x : ℚ)).sum) / n
  let rb_y := ((faces.map fun f => (f.rightBottom_y : ℚ)).sum) / n
  let width := ((faces.map fun f => (f.width : ℚ)).sum) / n
  let height := ((faces.map fun f => (f.height : ℚ)).sum) / n
  let box_lt_x := pyInt (tl_x - width)
  let box_lt_y := pyInt (tl_y - height / 2)
  let box_rb_x := pyInt (rb_x + width)
  let box_rb_y := pyInt (rb_y + height * (75 / 100))
  { box_lt_x := box_lt_x
    box_lt_y := box_lt_y
    box_width := box_rb_x - box_lt_x
    box_height := box_rb_y - box_lt_y
    center_x := (tl_x + rb_x) / 2
    avg_width := width
    avg_height := height }

/-- `sorted(frame, key=lambda f: f['topLeft']['x'])[0]` for a two-face
frame (stable sort: swap only when the second starts strictly left). -/
def leftFace (frame : List FaceObs) : Option FaceObs :=
  match frame with
  | [a, b] => some (if b.topLeft_x < a.topLeft_x then b else a)
  | _ => none

/-- The right face of a two-face frame, by the same stable sort. -/
def rightFace (frame : List FaceObs) : Option FaceObs :=
  match frame with
  | [a, b] => some (if b.topLeft_x < a.topLeft_x then a else b)
  | _ => none

/-- Left faces over the segment's frames. -/
def leftFaces (frames : List (List FaceObs)) : List FaceObs :=
  frames.filterMap leftFace

/-- Right faces over the segment's frames. -/
def rightFaces (frames : List (List FaceObs)) : List FaceObs :=
  frames.filterMap rightFace

/-- Frames with exactly two detected faces. -/
def dualFaceFrames (face_positions : List (List FaceObs)) :
    List (List FaceObs) :=
  face_positions.filter fun frame => frame.length == 2

/-- Does a two-face frame pass the size-similarity validation
(`size_ratio >= 0.5`)? -/
def frameSizeRatioOK (frame : List FaceObs) : Bool :=
  match frame with
  | [a, b] => decide ((1 / 2 : ℚ) ≤ sizeRatio a.width b.width)
  | _ => false

/-- The two-face frames that pass the size-similarity validation. -/
def dualValidFrames (face_positions : List (List FaceObs)) :
    List (List FaceObs) :=
  (dualFaceFrames face_positions).filter frameSizeRatioOK

/-- The `final_crop_width/height` conforming chain of
`_process_dual_face_crop`: conform to 9:8, then shrink to the source
width, then to the source height. -/
def conformDualSize (avg_box_width width height : ℤ) : ℤ × ℤ :=
  let w0 := avg_box_width
  let h0 := pyInt ((w0 : ℚ) * 8 / 9)
  let w1 := if w0 < h0 then pyInt ((h0 : ℚ) * 9 / 8) else w0
  let w2 := if width < w1 then width else w1
  let h2 := if width < w1 then pyInt ((width : ℚ) * 8 / 9) else h0
  if height < h2 then (pyInt ((height : ℚ) * 9 / 8), height) else (w2, h2)

/-- `_process_dual_face_crop`: average each side's boxes over the valid
two-face frames, conform to 9:8, clamp into bounds, and emit the dual
geometry — or fall back to the default single crop when there are no
two-face frames or fewer than half of them pass the size validation. -/
def process_dual_face_crop (face_positions : List (List FaceObs))
    (width height : ℤ) : CropResult :=
  let dual := dualFaceFrames face_positions
  if dual.isEmpty then get_default_crop_position width height .left
  else if ((dualValidFrames face_positions).length : ℚ) <
      (dual.length : ℚ) * (1 / 2) then
    get_default_crop_position width height .left
  else
    let frames := dualValidFrames face_positions
    let left := calculate_face_crop (leftFaces frames)
    let right := calculate_face_crop (rightFaces frames)
    let avg_box_width := Int.fdiv (left.box_width + right.box_width) 2
    let wh := conformDualSize avg_box_width width height
    let fw := wh.1
    let fh := wh.2
    let left_crop_x := clampCrop (pyInt (left.center_x - ((Int.fdiv fw 2 : ℤ) : ℚ))) (width - fw)
    let left_crop_y := clampCrop left.box_lt_y (height - fh)
    let right_crop_x := clampCrop (pyInt (right.center_x - ((Int.fdiv fw 2 : ℤ) : ℚ))) (width - fw)
    let right_crop_y := clampCrop right.box_lt_y (height - fh)
    .dualCrop ⟨left_crop_x, left_crop_y, fw, fh⟩ ⟨right_crop_x, right_crop_y, fw, fh⟩
      1080 (pyInt ((1080 : ℚ) * 8 / 9)) 1080 (pyInt ((1080 : ℚ) * 8 / 9) * 2)

/- ============================================================
   Zero-face panning (`_generate_panning_positions`, lines 132-181)
   ============================================================ -/

/-- `PAN_LEFT_BOUNDARY = 0.15`. -/
def PAN_LEFT_BOUNDARY : ℚ := 15 / 100

/-- `PAN_RIGHT_BOUNDARY = 0.85`. -/
def PAN_RIGHT_BOUNDARY : ℚ := 85 / 100

/-- `PAN_CYCLE_DURATION = 8.0` seconds per sweep cycle. -/
def PAN_CYCLE_DURATION : ℝ := 8

/-- `left_boundary_px = int(width * PAN_LEFT_BOUNDARY)`. -/
def pan_left_boundary_px (width : ℤ) : ℤ :=
  pyInt ((width : ℚ) * PAN_LEFT_BOUNDARY)

/-- `right_boundary_px`, after the validity adjustment
`max(left, min(int(width*0.85) - crop_width, width - crop_width))`. -/
def pan_right_boundary_px (width crop_width : ℤ) : ℤ :=
  max (pan_left_boundary_px width)
    (min (pyInt ((width : ℚ) * PAN_RIGHT_BOUNDARY) - crop_width)
      (width - crop_width))

/-- The x position of the sinusoidal pan at time `t`: centre plus
amplitude times `sin(2πt/8 - π/2)`, clamped to the pixel boundaries. -/
noncomputable def panX (width crop_width : ℤ) (t : ℝ) : ℝ :=
  let l := pan_left_boundary_px width
  let r := pan_right_boundary_px width crop_width
  let center : ℝ := ((l : ℝ) + (r : ℝ)) / 2
  let amplitude : ℝ := ((r : ℝ) - (l : ℝ)) / 2
  let angle : ℝ := 2 * Real.pi * t / PAN_CYCLE_DURATION
  max (l : ℝ) (min (center + amplitude * Real.sin (angle - Real.pi / 2)) (r : ℝ))

/-- `_generate_panning_positions`: one `(time, x)` pair per output frame
of the span. -/
noncomputable def generate_panning_positions (duration fps : ℝ)
    (width crop_width : ℤ) : List (ℝ × ℝ) :=
  (List.range (pyIntR (duration * fps)).toNat).map fun frame : ℕ =>
    ((frame : ℝ) / fps, panX width crop_width ((frame : ℝ) / fps))

/- ============================================================
   Smooth single-pass path choice (`_convert_to_reels_smooth` and
   `_get_face_positions_timeline`)
   ============================================================ -/

/-- `ENABLE_ZERO_FACE_PANNING = True`. -/
def ENABLE_ZERO_FACE_PANNING : Bool := true

/-- The fallback keyframe set of `_get_face_positions_timeline` when no
face survived filtering: two samples at the exact frame centre. -/
def fallbackPositions (width : ℤ) (total_frames : ℕ) (fps : ℚ) :
    List (ℚ × ℤ) :=
  [(0, Int.fdiv width 2), ((total_frames : ℚ) / fps, Int.fdiv width 2)]

/-- The keyframe set handed to the smoothing stage: the detected
positions, or the centre fallback when none were detected. -/
def timelinePositions (raw : List (ℚ × ℤ)) (width : ℤ)
    (total_frames : ℕ) (fps : ℚ) : List (ℚ × ℤ) :=
  if raw.isEmpty then fallbackPositions width total_frames fps else raw

/-- `is_zero_face`: exactly two keyframes, both at `width // 2`. -/
def isZeroFace (positions : List (ℚ × ℤ)) (width : ℤ) : Bool :=
  match positions with
  | [p, q] => (p.2 == Int.fdiv width 2) && (q.2 == Int.fdiv width 2)
  | _ => false

/-- Which trajectory source the smooth conversion uses. -/
inductive SmoothPath
  | panning
  | spline
deriving DecidableEq

/-- The branch of `_convert_to_reels_smooth`: panning when the keyframes
carry the zero-face signature (and panning is enabled), spline smoothing
otherwise. -/
def smoothPathChoice (positions : List (ℚ × ℤ)) (width : ℤ) : SmoothPath :=
  if isZeroFace positions width && ENABLE_ZERO_FACE_PANNING then .panning
  else .spline

/- ============================================================
   Per-segment single-face centering (`_convert_to_reels_dynamic`,
   lines 1305-1315)
   ============================================================ -/

/-- The keyframes extracted from a segment's per-frame observation lists:
one `(timestamp, x-centre)` pair per nonempty frame, centred on the
first-listed observation. -/
def segmentFacePositions (faces : List (List FaceObs)) (segDuration : ℚ) :
    List (ℚ × ℚ) :=
  faces.enum.filterMap fun p =>
    match p.2 with
    | [] => none
    | f :: _ =>
      some (((p.1 : ℚ) / (faces.length : ℚ)) * segDuration,
        ((f.topLeft_x : ℚ) + (f.rightBottom_x : ℚ)) / 2)

/- ============================================================
   Conversion-path cleanup skeletons (`_convert_to_reels_smooth`,
   `_convert_to_reels_dynamic`, `_convert_to_stacked_format`)
   ============================================================ -/

/-- One step of a conversion body after its `tempfile.mkdtemp()`: an
external transcode invocation (indexed, can fail) or the
`shutil.rmtree` of the scoped temp directory. -/
inductive ConvStep
  | run (idx : ℕ)
  | removeTemp

/-- Run the body sequentially: a failing transcode raises, abandoning the
remaining steps (the exception lands in the `except` clause); `removeTemp`
marks the directory removed.  Returns (body succeeded, directory removed). -/
def execConvSteps (ok : ℕ → Bool) : List ConvStep → Bool → Bool × Bool
  | [], removed => (true, removed)
  | .run i :: rest, removed =>
    if ok i then execConvSteps ok rest removed else (false, removed)
  | .removeTemp :: rest, removed => execConvSteps ok rest true

/-- `_convert_to_reels_smooth` after `mkdtemp`: the single ffmpeg run,
then `shutil.rmtree` — sequentially, with no `finally`. -/
def convert_smooth_steps : List ConvStep := [.run 0, .removeTemp]

/-- Outcome of the smooth single-pass conversion body. -/
def convert_to_reels_smooth_outcome (ok : ℕ → Bool) : Bool × Bool :=
  execConvSteps ok convert_smooth_steps false

/-- `_convert_to_reels_dynamic` multi-segment body: audio extraction, an
extract + process pair per segment, the concat and the remux — all inside
`try`, with no `removeTemp` step of its own. -/
def convert_dynamic_steps (numSegments : ℕ) : List ConvStep :=
  .run 0 ::
    ((List.range numSegments).map fun i =>
      [ConvStep.run (2 * i + 1), ConvStep.run (2 * i + 2)]).join ++
    [.run 1000, .run 1001]

/-- Outcome of the dynamic pipeline: its `finally` clause removes the
temp directory whatever the body did. -/
def convert_to_reels_dynamic_outcome (ok : ℕ → Bool) (numSegments : ℕ) :
    Bool × Bool :=
  ((execConvSteps ok (convert_dynamic_steps numSegments) false).1, true)

/-- `_convert_to_stacked_format` body: bottom box, top box, vstack, then
`shutil.rmtree` — sequentially, with no `finally`. -/
def convert_stacked_steps : List ConvStep :=
  [.run 0, .run 1, .run 2, .removeTemp]

/-- Outcome of the stacked-format conversion body. -/
def convert_to_stacked_outcome (ok : ℕ → Bool) : Bool × Bool :=
  execConvSteps ok convert_stacked_steps false

/- ============================================================
   Concrete test inputs used by witnesses / counterexamples
   ============================================================ -/

/-- A 2 s zero-face segment [0, 2). -/
def wSeg1 : Segment FaceObs := ⟨0, 0, 2, 0, 60, []⟩

/-- A 3 s one-face segment [2, 5). -/
def wSeg2 : Segment FaceObs := ⟨1, 2, 5, 60, 150, []⟩

/-- A 3 s one-face segment [0, 3). -/
def cSegA : Segment FaceObs := ⟨1, 0, 3, 0, 90, []⟩

/-- A 0.5 s two-face segment [3, 3.5). -/
def cSegB : Segment FaceObs := ⟨2, 3, 7 / 2, 90, 105, []⟩

/-- A 2.5 s one-face segment [3.5, 6). -/
def cSegC : Segment FaceObs := ⟨1, 7 / 2, 6, 105, 180, []⟩

/-- A 5 s zero-face segment [0, 5). -/
def cSegD : Segment FaceObs := ⟨0, 0, 5, 0, 150, []⟩

/-- A final 0.5 s one-face segment [5, 5.5). -/
def cSegE : Segment FaceObs := ⟨1, 5, 11 / 2, 150, 165, []⟩

/-- A 2 s zero-face segment [5, 7). -/
def cSegF : Segment FaceObs := ⟨0, 5, 7, 150, 210, []⟩

/-- A 20×20 face at x = 300. -/
def cFaceL : FaceObs := ⟨300, 300, 320, 320, 20, 20, 9 / 10⟩

/-- A 20×20 face at x = 400. -/
def cFaceR : FaceObs := ⟨400, 300, 420, 320, 20, 20, 9 / 10⟩

/-- A 100-wide face next to a 30-wide face: size ratio 0.3. -/
def cFaceBig : FaceObs := ⟨600, 100, 700, 200, 100, 100, 9 / 10⟩

/-- The 30-wide face of the mismatched pair. -/
def cFaceSmall : FaceObs := ⟨300, 100, 330, 130, 30, 30, 9 / 10⟩

/-- A raw detection that survives the filters at 1000×300: 30×30 at x=300. -/
def cDetSmall : Detection := ⟨300, 100, 30, 30, 9 / 10⟩

/-- A raw detection that survives the filters at 1000×300: 100×100 at x=600. -/
def cDetBig : Detection := ⟨600, 100, 100, 100, 9 / 10⟩

/- ============================================================
   Theorems: numeric helpers
   ============================================================ -/

/-- `pyInt` is the ceiling on negatives and the floor otherwise. -/
theorem pyInt_eq (q : ℚ) : pyInt q = if q < 0 then ⌈q⌉ else ⌊q⌋ := by
  have hden : (0 : ℤ) < (q.den : ℤ) := Int.natCast_pos.mpr q.pos
  by_cases h : q < 0
  · have hnum : q.num < 0 := Rat.num_neg.mpr h
    simp only [pyInt, if_pos h]
    have h2 : q.num = -(-q.num) := by ring
    rw [h2, Int.neg_tdiv, Int.tdiv_eq_ediv (by omega) (le_of_lt hden)]
    rw [show (-q.num) / (q.den : ℤ) = ⌊-q⌋ by rw [Rat.floor_def]; norm_num]
    rw [Int.floor_neg]
    ring
  · push_neg at h
    have hnum : 0 ≤ q.num := Rat.num_nonneg.mpr h
    simp only [pyInt, if_neg (not_lt.mpr h)]
    rw [Int.tdiv_eq_ediv hnum (le_of_lt hden), Rat.floor_def]

/-- On nonnegative arguments `pyInt` is the floor. -/
theorem pyInt_of_nonneg {q : ℚ} (h : 0 ≤ q) : pyInt q = ⌊q⌋ := by
  rw [pyInt_eq, if_neg (not_lt.mpr h)]

/-- `pyInt` of an integer is that integer. -/
theorem pyInt_intCast (z : ℤ) : pyInt (z : ℚ) = z := by
  rw [pyInt_eq]
  rcases lt_or_ge (z : ℚ) 0 with h | h
  · rw [if_pos h, Int.ceil_intCast]
  · rw [if_neg (not_lt.mpr h), Int.floor_intCast]

/-- Truncation never moves a value by one or more: `q - 1 < pyInt q < q + 1`. -/
theorem pyInt_bounds (q : ℚ) : q - 1 < (pyInt q : ℚ) ∧ (pyInt q : ℚ) < q + 1 := by
  rw [pyInt_eq]
  by_cases h : q < 0
  · rw [if_pos h]
    constructor
    · have := Int.le_ceil q
      linarith
    · have := Int.ceil_lt_add_one q
      push_cast at this ⊢
      linarith
  · rw [if_neg h]
    constructor
    · have := Int.sub_one_lt_floor q
      push_cast at this ⊢
      linarith
    · have := Int.floor_le q
      linarith

/-- The floor bound for nonnegative truncation. -/
theorem pyInt_le {q : ℚ} (h : 0 ≤ q) : (pyInt q : ℚ) ≤ q := by
  rw [pyInt_of_nonneg h]
  exact Int.floor_le q

/-- Clamping into `[0, bound]` stays there when the bound is sane. -/
theorem clampCrop_bounds (v bound : ℤ) (h : 0 ≤ bound) :
    0 ≤ clampCrop v bound ∧ clampCrop v bound ≤ bound := by
  refine ⟨le_max_left 0 _, ?_⟩
  rw [clampCrop]
  exact max_le h (min_le_right v bound)

/- ============================================================
   Theorems: the partition invariant (claims C1, C2)
   ============================================================ -/

theorem coversFrom_le {β : Type} :
    ∀ (segs : List (Segment β)) (lo hi : ℚ), coversFrom lo segs hi → lo ≤ hi
  | [], lo, hi, h => le_of_eq h
  | _ :: rest, lo, hi, h =>
    le_trans (le_of_lt h.2.1) (coversFrom_le rest _ hi h.2.2)

theorem coversFrom_lt {β : Type} (s : Segment β) (rest : List (Segment β))
    (lo hi : ℚ) (h : coversFrom lo (s :: rest) hi) : lo < hi :=
  lt_of_lt_of_le h.2.1 (coversFrom_le rest _ hi h.2.2)

/-- In a partition the start times strictly increase. -/
theorem coversFrom_chain_start {β : Type} :
    ∀ (segs : List (Segment β)) (lo hi : ℚ), coversFrom lo segs hi →
      List.Chain' (fun a b : Segment β => a.start_time < b.start_time) segs
  | [], _, _, _ => List.chain'_nil
  | [_], _, _, _ => List.chain'_singleton _
  | s :: s2 :: rest, lo, hi, h => by
    have htail : coversFrom s.end_time (s2 :: rest) hi := h.2.2
    refine List.Chain'.cons ?_ (coversFrom_chain_start (s2 :: rest) _ hi htail)
    rw [h.1, htail.1]
    exact h.2.1

/-- The last segment of a partition ends at `hi`. -/
theorem coversFrom_getLast_end {β : Type} :
    ∀ (s : Segment β) (rest : List (Segment β)) (lo hi : ℚ),
      coversFrom lo (s :: rest) hi →
      ((s :: rest).getLast (List.cons_ne_nil s rest)).end_time = hi
  | s, [], lo, hi, h => by
    simp only [List.getLast_singleton]
    have h2 : coversFrom s.end_time ([] : List (Segment β)) hi := h.2.2
    exact h2
  | s, s2 :: rest, lo, hi, h => by
    rw [List.getLast_cons (List.cons_ne_nil s2 rest)]
    exact coversFrom_getLast_end s2 rest s.end_time hi h.2.2

/-- A partition's span union is the whole interval. -/
theorem coversFrom_spanUnion {β : Type} :
    ∀ (segs : List (Segment β)) (lo hi : ℚ), coversFrom lo segs hi →
      spanUnion segs = Set.Ico lo hi
  | [], lo, hi, h => by
    simp only [spanUnion, List.foldr_nil]
    rw [h]
    exact (Set.Ico_self hi).symm
  | s :: rest, lo, hi, h => by
    have htail := coversFrom_spanUnion rest s.end_time hi h.2.2
    simp only [spanUnion, List.foldr_cons] at htail ⊢
    rw [htail, h.1]
    exact Set.Ico_union_Ico_eq_Ico (le_of_lt h.2.1)
      (coversFrom_le rest s.end_time hi h.2.2)

/-- Weaken the base of an increasing chain. -/
theorem chain_lt_of_lt {α : Type} [Preorder α] {a b : α} {l : List α}
    (hab : a < b) (h : List.Chain (· < ·) b l) : List.Chain (· < ·) a l := by
  cases h with
  | nil => exact List.Chain.nil
  | cons hbc hrest => exact List.Chain.cons (lt_trans hab hbc) hrest

/-- The segmentation loop tiles `[cur.start_time, dur)` whenever the
remaining sample times increase strictly from above `cur.start_time` and
stay below `dur`. -/
theorem segLoop_coversFrom {β : Type} :
    ∀ (samples : List (Sample β)) (cur : OpenSeg β) (dur : ℚ) (df : ℕ),
      List.Chain (· < ·) cur.start_time (samples.map Sample.t) →
      (∀ s ∈ samples, s.t < dur) →
      cur.start_time < dur →
      coversFrom cur.start_time (segLoop cur samples dur df) dur
  | [], cur, dur, df, _, _, hlt => ⟨rfl, hlt, rfl⟩
  | s :: rest, cur, dur, df, hchain, hbelow, hlt => by
    rw [List.map_cons] at hchain
    cases hchain with
    | cons hcs hrest =>
      by_cases hc : s.count = cur.face_count
      · simp only [segLoop, if_pos hc]
        exact segLoop_coversFrom rest { cur with faces := cur.faces ++ initFaces s.obs }
          dur df (chain_lt_of_lt hcs hrest)
          (fun x hx => hbelow x (List.mem_cons_of_mem s hx)) hlt
      · simp only [segLoop, if_neg hc]
        refine ⟨rfl, hcs, ?_⟩
        exact segLoop_coversFrom rest (openOn s) dur df hrest
          (fun x hx => hbelow x (List.mem_cons_of_mem s hx))
          (hbelow s (List.mem_cons_self s rest))

/-- Every sampled index lies in `[i, totalFrames)`. -/
theorem sampleFramesAux_bounds (totalFrames n i : ℕ) :
    ∀ x ∈ sampleFramesAux totalFrames n i, i ≤ x ∧ x < totalFrames := by
  rw [sampleFramesAux]
  split
  · next h =>
    intro x hx
    rcases List.mem_cons.mp hx with rfl | hx
    · exact ⟨le_refl _, h.1⟩
    · have := sampleFramesAux_bounds totalFrames n (i + n) x hx
      omega
  · intro x hx
    simp at hx
termination_by totalFrames - i
decreasing_by omega

/-- Sampled indices strictly increase. -/
theorem sampleFramesAux_chain (totalFrames n i : ℕ) :
    List.Chain' (· < ·) (sampleFramesAux totalFrames n i) := by
  rw [sampleFramesAux]
  split
  · next h =>
    refine List.chain'_cons'.mpr ⟨?_, sampleFramesAux_chain totalFrames n (i + n)⟩
    intro b hb
    have hmem : b ∈ sampleFramesAux totalFrames n (i + n) := List.mem_of_mem_head? hb
    have := sampleFramesAux_bounds totalFrames n (i + n) b hmem
    omega
  · exact List.chain'_nil
termination_by totalFrames - i
decreasing_by omega

/-- The loop visits frame 0 first. -/
theorem sampleFrames_eq_cons (totalFrames n : ℕ) (h1 : 0 < totalFrames)
    (h2 : 0 < n) :
    sampleFrames totalFrames n = 0 :: sampleFramesAux totalFrames n n := by
  rw [sampleFrames, sampleFramesAux, dif_pos ⟨h1, h2⟩, Nat.zero_add]

/-- The first pass preserves the partition. -/
theorem filterShortAux_coversFrom {β : Type} :
    ∀ (rest : List (Segment β)) (pending : Segment β) (lo hi : ℚ),
      coversFrom lo (pending :: rest) hi →
      coversFrom lo (filterShortAux pending rest) hi
  | [], pending, lo, hi, h => by
    simpa only [filterShortAux] using h
  | seg :: rest, pending, lo, hi, h => by
    have hstart : pending.start_time = lo := h.1
    have hlo : lo < pending.end_time := h.2.1
    have htail : coversFrom pending.end_time (seg :: rest) hi := h.2.2
    by_cases hkeep : 1 ≤ segDur seg ∨ rest.isEmpty
    · simp only [filterShortAux, if_pos hkeep]
      exact ⟨hstart, hlo, filterShortAux_coversFrom rest seg pending.end_time hi htail⟩
    · simp only [filterShortAux, if_neg hkeep]
      exact filterShortAux_coversFrom rest (extendSeg pending seg) lo hi
        ⟨hstart, lt_trans hlo htail.2.1, htail.2.2⟩

/-- The second pass preserves the partition. -/
theorem mergeSameAux_coversFrom {β : Type} :
    ∀ (rest : List (Segment β)) (current : Segment β) (lo hi : ℚ),
      coversFrom lo (current :: rest) hi →
      coversFrom lo (mergeSameAux current rest) hi
  | [], current, lo, hi, h => by
    simpa only [mergeSameAux] using h
  | seg :: rest, current, lo, hi, h => by
    have hstart : current.start_time = lo := h.1
    have hlo : lo < current.end_time := h.2.1
    have htail : coversFrom current.end_time (seg :: rest) hi := h.2.2
    by_cases heq : seg.face_count = current.face_count
    · simp only [mergeSameAux, if_pos heq]
      exact mergeSameAux_coversFrom rest (extendSeg current seg) lo hi
        ⟨hstart, lt_trans hlo htail.2.1, htail.2.2⟩
    · simp only [mergeSameAux, if_neg heq]
      exact ⟨hstart, hlo, mergeSameAux_coversFrom rest seg current.end_time hi htail⟩

/-- The first pass never returns the empty list. -/
theorem filterShortAux_ne_nil {β : Type} :
    ∀ (rest : List (Segment β)) (pending : Segment β),
      filterShortAux pending rest ≠ []
  | [], pending => by simp [filterShortAux]
  | seg :: rest, pending => by
    by_cases hkeep : 1 ≤ segDur seg ∨ rest.isEmpty
    · simp [filterShortAux, if_pos hkeep]
    · simp only [filterShortAux, if_neg hkeep]
      exact filterShortAux_ne_nil rest (extendSeg pending seg)

/-- The second pass never returns the empty list. -/
theorem mergeSameAux_ne_nil {β : Type} :
    ∀ (rest : List (Segment β)) (current : Segment β),
      mergeSameAux current rest ≠ []
  | [], current => by simp [mergeSameAux]
  | seg :: rest, current => by
    by_cases heq : seg.face_count = current.face_count
    · simp only [mergeSameAux, if_pos heq]
      exact mergeSameAux_ne_nil rest (extendSeg current seg)
    · simp [mergeSameAux, if_neg heq]

/-- `_merge_segments` preserves the partition invariant. -/
theorem merge_segments_partition {β : Type} (segs : List (Segment β))
    (lo hi : ℚ) (h : IsPartition segs lo hi) :
    IsPartition (merge_segments segs) lo hi := by
  obtain ⟨hne, hcov⟩ := h
  match segs, hne, hcov with
  | s :: rest, _, hcov =>
    have h1 : coversFrom lo (filterShortAux s rest) hi :=
      filterShortAux_coversFrom rest s lo hi hcov
    rw [merge_segments]
    cases hfs : filterShortAux s rest with
    | nil => exact absurd hfs (filterShortAux_ne_nil rest s)
    | cons t rest2 =>
      rw [hfs] at h1
      exact ⟨mergeSameAux_ne_nil rest2 t, mergeSameAux_coversFrom rest2 t lo hi h1⟩

/-- The segment list from `detect_face_segments` partitions
`[0, total_frames / fps)`. -/
theorem detect_face_segments_partition (det : ℕ → List Detection) (W H : ℤ)
    (totalFrames n : ℕ) (fps : ℚ) (h1 : 0 < totalFrames) (h2 : 0 < n)
    (h3 : 0 < fps) :
    IsPartition (detect_face_segments det W H totalFrames n fps) 0
      ((totalFrames : ℚ) / fps) := by
  have hsf := sampleFrames_eq_cons totalFrames n h1 h2
  rw [detect_face_segments, hsf, List.map_cons]
  simp only [segmentSamples]
  set cur := openOn (frameSample det W H fps 0) with hcur
  have hstart : cur.start_time = 0 := by
    simp [hcur, openOn, frameSample]
  have hdurpos : (0 : ℚ) < (totalFrames : ℚ) / fps := by
    apply div_pos _ h3
    exact_mod_cast h1
  have hmapt :
      ((sampleFramesAux totalFrames n n).map (frameSample det W H fps)).map Sample.t
        = (sampleFramesAux totalFrames n n).map fun i : ℕ => (i : ℚ) / fps := by
    rw [List.map_map]
    rfl
  have hchain :
      List.Chain (· < ·) cur.start_time
        (((sampleFramesAux totalFrames n n).map (frameSample det W H fps)).map Sample.t) := by
    rw [hmapt, hstart]
    have hchainN : List.Chain' (· < ·) (sampleFramesAux totalFrames n n) :=
      sampleFramesAux_chain totalFrames n n
    have hchainQ :
        List.Chain' (· < ·) ((sampleFramesAux totalFrames n n).map fun i : ℕ => (i : ℚ) / fps) := by
      rw [List.chain'_map]
      refine hchainN.imp ?_
      intro a b hab
      have : (a : ℚ) < (b : ℚ) := by exact_mod_cast hab
      exact (div_lt_div_right h3).mpr this
    cases hml : (sampleFramesAux totalFrames n n).map (fun i : ℕ => (i : ℚ) / fps) with
    | nil => exact List.Chain.nil
    | cons a l =>
      rw [hml] at hchainQ
      refine List.Chain.cons ?_ hchainQ
      obtain ⟨i, hi, rfl⟩ := List.mem_map.mp (hml ▸ List.mem_cons_self a l)
      have hipos : 0 < i := (sampleFramesAux_bounds totalFrames n n i hi).1.trans_lt' h2
      positivity
  have hbelow : ∀ s ∈ (sampleFramesAux totalFrames n n).map (frameSample det W H fps),
      s.t < (totalFrames : ℚ) / fps := by
    intro s hs
    obtain ⟨i, hi, rfl⟩ := List.mem_map.mp hs
    have hilt : i < totalFrames := (sampleFramesAux_bounds totalFrames n n i hi).2
    show (i : ℚ) / fps < (totalFrames : ℚ) / fps
    have : (i : ℚ) < (totalFrames : ℚ) := by exact_mod_cast hilt
    exact (div_lt_div_right h3).mpr this
  have hcov := segLoop_coversFrom
    ((sampleFramesAux totalFrames n n).map (frameSample det W H fps)) cur
    ((totalFrames : ℚ) / fps) totalFrames hchain hbelow (hstart ▸ hdurpos)
  rw [hstart] at hcov
  refine ⟨?_, hcov⟩
  cases hsl : segLoop cur ((sampleFramesAux totalFrames n n).map (frameSample det W H fps))
      ((totalFrames : ℚ) / fps) totalFrames with
  | nil =>
    rw [hsl] at hcov
    exact absurd hcov (by simpa using ne_of_lt hdurpos)
  | cons a l => simp

/-- C1: for every input detection stream with at least one sampled frame,
the list returned by `detect_face_segments` partitions `[0, duration)`:
the first `start_time` is 0, each `end_time` meets the next `start_time`,
the last `end_time` is `total_frames / fps`, and the segments are ordered
by `start_time`; and `_merge_segments` preserves this partition property. -/
theorem C1_segments_partition (det : ℕ → List Detection) (W H : ℤ)
    (totalFrames n : ℕ) (fps : ℚ) (h1 : 0 < totalFrames) (h2 : 0 < n)
    (h3 : 0 < fps) :
    IsPartition (detect_face_segments det W H totalFrames n fps) 0
        ((totalFrames : ℚ) / fps) ∧
      List.Chain' (fun a b : Segment FaceObs => a.start_time < b.start_time)
        (detect_face_segments det W H totalFrames n fps) ∧
      ∀ (segs : List (Segment FaceObs)) (lo hi : ℚ),
        IsPartition segs lo hi →
          IsPartition (merge_segments segs) lo hi ∧
            List.Chain' (fun a b : Segment FaceObs => a.start_time < b.start_time)
              (merge_segments segs) := by
  have hdet := detect_face_segments_partition det W H totalFrames n fps h1 h2 h3
  refine ⟨hdet, coversFrom_chain_start _ _ _ hdet.2, ?_⟩
  intro segs lo hi hpart
  have hm := merge_segments_partition segs lo hi hpart
  exact ⟨hm, coversFrom_chain_start _ _ _ hm.2⟩

/-- Witness for C1 at a concrete input: an empty detection stream over 16
frames sampled every 8 frames at 2 fps. -/
theorem C1_segments_partition_witness :
    IsPartition (detect_face_segments (fun _ => []) 100 100 16 8 2) 0
      ((16 : ℚ) / 2) :=
  (C1_segments_partition (fun _ => []) 100 100 16 8 2 (by norm_num)
    (by norm_num) (by norm_num)).1

/- ============================================================
   Theorems: refiner structure (claims C2, C3)
   ============================================================ -/

/-- When every folded-pass input except the last already lasts 1.0 s, the
pass keeps the list unchanged. -/
theorem filterShortAux_id {β : Type} :
    ∀ (rest : List (Segment β)) (pending : Segment β),
      (∀ s ∈ rest.dropLast, 1 ≤ segDur s) →
      filterShortAux pending rest = pending :: rest
  | [], pending, _ => by simp [filterShortAux]
  | seg :: rest, pending, h => by
    cases rest with
    | nil => simp [filterShortAux]
    | cons b t =>
      have hseg : 1 ≤ segDur seg := by
        apply h seg
        rw [List.dropLast_cons₂]
        exact List.mem_cons_self seg _
      simp only [filterShortAux, if_pos (Or.inl hseg)]
      congr 1
      refine filterShortAux_id (b :: t) seg ?_
      intro s hs
      apply h s
      rw [List.dropLast_cons₂]
      exact List.mem_cons_of_mem seg hs

/-- When no adjacent pair shares a face count, the merge pass keeps the
list unchanged. -/
theorem mergeSameAux_id {β : Type} :
    ∀ (rest : List (Segment β)) (current : Segment β),
      List.Chain' (fun a b : Segment β => a.face_count ≠ b.face_count)
        (current :: rest) →
      mergeSameAux current rest = current :: rest
  | [], current, _ => by simp [mergeSameAux]
  | seg :: rest, current, h => by
    have hne : current.face_count ≠ seg.face_count := (List.chain'_cons.mp h).1
    simp only [mergeSameAux, if_neg (Ne.symm hne)]
    congr 1
    exact mergeSameAux_id rest seg (List.chain'_cons.mp h).2

/-- Structure of the folded pass on a partition: the head keeps its start
and can only grow, and every output segment other than the first and the
last lasts at least 1.0 s. -/
theorem filterShortAux_strong {β : Type} :
    ∀ (rest : List (Segment β)) (pending : Segment β) (lo hi : ℚ),
      coversFrom lo (pending :: rest) hi →
      ∃ p2 t, filterShortAux pending rest = p2 :: t ∧
        segDur pending ≤ segDur p2 ∧
        coversFrom lo (p2 :: t) hi ∧
        (∀ s ∈ t.dropLast, 1 ≤ segDur s)
  | [], pending, lo, hi, h =>
    ⟨pending, [], by simp [filterShortAux], le_refl _, h, by simp⟩
  | seg :: rest, pending, lo, hi, h => by
    have hstart : pending.start_time = lo := h.1
    have hlo : lo < pending.end_time := h.2.1
    have htail : coversFrom pending.end_time (seg :: rest) hi := h.2.2
    by_cases hkeep : 1 ≤ segDur seg ∨ rest.isEmpty
    · obtain ⟨q, t2, heq, hdur, hcovq, hmid⟩ :=
        filterShortAux_strong rest seg pending.end_time hi htail
      refine ⟨pending, q :: t2, ?_, le_refl _, ?_, ?_⟩
      · simp only [filterShortAux, if_pos hkeep, heq]
      · exact ⟨hstart, hlo, heq ▸ hcovq⟩
      · cases t2 with
        | nil => simp
        | cons c t3 =>
          intro s hs
          rw [List.dropLast_cons₂] at hs
          rcases List.mem_cons.mp hs with rfl | hs
          · rcases hkeep with hk | hk
            · calc (1 : ℚ) ≤ segDur seg := hk
                _ ≤ segDur s := hdur
            · exfalso
              rw [List.isEmpty_iff] at hk
              subst hk
              simp only [filterShortAux] at heq
              simp at heq
          · exact hmid s hs
    · obtain ⟨q, t2, heq, hdur, hcovq, hmid⟩ :=
        filterShortAux_strong rest (extendSeg pending seg) lo hi
          ⟨hstart, lt_trans hlo htail.2.1, htail.2.2⟩
      refine ⟨q, t2, ?_, ?_, hcovq, hmid⟩
      · simp only [filterShortAux, if_neg hkeep, heq]
      · refine le_trans ?_ hdur
        show pending.end_time - pending.start_time ≤ seg.end_time - pending.start_time
        have : pending.end_time < seg.end_time := htail.2.1
        linarith

/-- Structure of the merge pass on a partition whose middle segments last
1.0 s: the head keeps its count and can only grow, no two adjacent output
segments share a count, and every output segment other than the first and
the last lasts at least 1.0 s. -/
theorem mergeSameAux_strong {β : Type} :
    ∀ (rest : List (Segment β)) (current : Segment β) (lo hi : ℚ),
      coversFrom lo (current :: rest) hi →
      (∀ s ∈ rest.dropLast, 1 ≤ segDur s) →
      ∃ q t, mergeSameAux current rest = q :: t ∧
        q.face_count = current.face_count ∧
        segDur current ≤ segDur q ∧
        List.Chain' (fun a b : Segment β => a.face_count ≠ b.face_count) (q :: t) ∧
        (∀ s ∈ t.dropLast, 1 ≤ segDur s)
  | [], current, lo, hi, _, _ =>
    ⟨current, [], by simp [mergeSameAux], rfl, le_refl _,
      List.chain'_singleton _, by simp⟩
  | seg :: rest, current, lo, hi, h, hmids => by
    have hstart : current.start_time = lo := h.1
    have hlo : lo < current.end_time := h.2.1
    have htail : coversFrom current.end_time (seg :: rest) hi := h.2.2
    have hmids2 : ∀ s ∈ rest.dropLast, 1 ≤ segDur s := by
      intro s hs
      apply hmids s
      cases rest with
      | nil => simp at hs
      | cons b t =>
        rw [List.dropLast_cons₂]
        exact List.mem_cons_of_mem seg hs
    by_cases heq : seg.face_count = current.face_count
    · obtain ⟨q, t, heq2, hfc, hdur, hchain, hm⟩ :=
        mergeSameAux_strong rest (extendSeg current seg) lo hi
          ⟨hstart, lt_trans hlo htail.2.1, htail.2.2⟩ hmids2
      refine ⟨q, t, ?_, hfc, ?_, hchain, hm⟩
      · simp only [mergeSameAux, if_pos heq, heq2]
      · refine le_trans ?_ hdur
        show current.end_time - current.start_time ≤ seg.end_time - current.start_time
        have : current.end_time < seg.end_time := htail.2.1
        linarith
    · obtain ⟨q, t, heq2, hfc, hdur, hchain, hm⟩ :=
        mergeSameAux_strong rest seg current.end_time hi htail hmids2
      refine ⟨current, q :: t, ?_, rfl, le_refl _, ?_, ?_⟩
      · simp only [mergeSameAux, if_neg heq, heq2]
      · refine List.chain'_cons.mpr ⟨?_, hchain⟩
        rw [hfc]
        exact fun hcur => heq hcur.symm
      · cases t with
        | nil => simp
        | cons c t2 =>
          intro s hs
          rw [List.dropLast_cons₂] at hs
          rcases List.mem_cons.mp hs with rfl | hs
          · have hrest : rest ≠ [] := by
              intro hr
              subst hr
              simp only [mergeSameAux] at heq2
              simp at heq2
            have hseg : 1 ≤ segDur seg := by
              apply hmids seg
              cases rest with
              | nil => exact absurd rfl hrest
              | cons b t3 =>
                rw [List.dropLast_cons₂]
                exact List.mem_cons_self _ _
            exact le_trans hseg hdur
          · exact hm s hs

/-- A list that is already refined — no adjacent equal counts, all middle
segments at least 1.0 s — is a fixed point of `_merge_segments`. -/
theorem merge_segments_fixed {β : Type} (q : Segment β) (t : List (Segment β))
    (hchain : List.Chain' (fun a b : Segment β => a.face_count ≠ b.face_count)
      (q :: t))
    (hmid : ∀ s ∈ t.dropLast, 1 ≤ segDur s) :
    merge_segments (q :: t) = q :: t := by
  rw [merge_segments, filterShortAux_id t q hmid]
  exact mergeSameAux_id t q hchain

/-- The refined output of `_merge_segments` on a partition, explicitly. -/
theorem merge_segments_strong {β : Type} (s : Segment β)
    (rest : List (Segment β)) (lo hi : ℚ)
    (hcov : coversFrom lo (s :: rest) hi) :
    ∃ q t2, merge_segments (s :: rest) = q :: t2 ∧
      List.Chain' (fun a b : Segment β => a.face_count ≠ b.face_count) (q :: t2) ∧
      (∀ x ∈ t2.dropLast, 1 ≤ segDur x) := by
  obtain ⟨p2, t, hfs, _, hcov2, hmid⟩ := filterShortAux_strong rest s lo hi hcov
  obtain ⟨q, t2, hms, _, _, hchain, hmid2⟩ :=
    mergeSameAux_strong t p2 lo hi hcov2 hmid
  refine ⟨q, t2, ?_, hchain, hmid2⟩
  rw [merge_segments, hfs]
  exact hms

/-- Applying `_merge_segments` to its own output (on a partition) changes
nothing. -/
theorem merge_segments_idem {β : Type} (segs : List (Segment β)) (lo hi : ℚ)
    (h : IsPartition segs lo hi) :
    merge_segments (merge_segments segs) = merge_segments segs := by
  obtain ⟨hne, hcov⟩ := h
  match segs, hne, hcov with
  | s :: rest, _, hcov =>
    obtain ⟨q, t2, hm, hchain, hmid2⟩ := merge_segments_strong s rest lo hi hcov
    rw [hm]
    exact merge_segments_fixed q t2 hchain hmid2

/-- C2: on a nonempty partition of `[0, duration)` the refiner keeps the
covered span (same span union, same first start and last end), and it is
idempotent. -/
theorem C2_refine_conserves_and_idempotent (segs : List (Segment FaceObs))
    (dur : ℚ) (h : IsPartition segs 0 dur) :
    spanUnion (merge_segments segs) = spanUnion segs ∧
      (merge_segments segs).head?.map Segment.start_time =
        segs.head?.map Segment.start_time ∧
      (merge_segments segs).getLast?.map Segment.end_time =
        segs.getLast?.map Segment.end_time ∧
      merge_segments (merge_segments segs) = merge_segments segs := by
  have hm := merge_segments_partition segs 0 dur h
  obtain ⟨hne, hcov⟩ := h
  obtain ⟨hne2, hcov2⟩ := hm
  refine ⟨?_, ?_, ?_, merge_segments_idem segs 0 dur ⟨hne, hcov⟩⟩
  · rw [coversFrom_spanUnion _ _ _ hcov2, coversFrom_spanUnion _ _ _ hcov]
  · cases hms : merge_segments segs with
    | nil => exact absurd hms hne2
    | cons a l =>
      cases segs with
      | nil => exact absurd rfl hne
      | cons s rest =>
        rw [hms] at hcov2
        simp only [List.head?_cons, Option.map_some']
        rw [hcov2.1, hcov.1]
  · cases hms : merge_segments segs with
    | nil => exact absurd hms hne2
    | cons a l =>
      cases segs with
      | nil => exact absurd rfl hne
      | cons s rest =>
        rw [hms] at hcov2
        rw [List.getLast?_eq_getLast (a :: l) (List.cons_ne_nil a l),
          List.getLast?_eq_getLast (s :: rest) (List.cons_ne_nil s rest)]
        simp only [Option.map_some']
        rw [coversFrom_getLast_end a l 0 dur hcov2,
          coversFrom_getLast_end s rest 0 dur hcov]

/-- Witness for C2 at a concrete two-segment partition of [0, 5). -/
theorem C2_refine_witness :
    spanUnion (merge_segments [wSeg1, wSeg2]) = spanUnion [wSeg1, wSeg2] ∧
      (merge_segments [wSeg1, wSeg2]).head?.map Segment.start_time =
        [wSeg1, wSeg2].head?.map Segment.start_time ∧
      (merge_segments [wSeg1, wSeg2]).getLast?.map Segment.end_time =
        [wSeg1, wSeg2].getLast?.map Segment.end_time ∧
      merge_segments (merge_segments [wSeg1, wSeg2]) =
        merge_segments [wSeg1, wSeg2] :=
  C2_refine_conserves_and_idempotent [wSeg1, wSeg2] 5
    ⟨by simp, by norm_num [coversFrom, wSeg1, wSeg2]⟩

/-- C3 (amended): the refiner folds short segments first (keeping the
first segment, which has no predecessor, and the final segment, which the
pass always keeps) and merges equal adjacent counts second; consequently
every output segment other than the first and the last lasts at least
1.0 s. -/
theorem C3_refined_middle_durations (segs : List (Segment FaceObs))
    (lo hi : ℚ) (h : IsPartition segs lo hi) :
    ∀ s ∈ ((merge_segments segs).drop 1).dropLast, 1 ≤ segDur s := by
  obtain ⟨hne, hcov⟩ := h
  match segs, hne, hcov with
  | s :: rest, _, hcov =>
    obtain ⟨q, t2, hm, _, hmid2⟩ := merge_segments_strong s rest lo hi hcov
    rw [hm]
    simpa using hmid2

/-- Witness for C3's amended statement: the middle segment of a refined
three-segment partition lasts at least 1.0 s. -/
theorem C3_refined_middle_durations_witness : 1 ≤ segDur wSeg2 := by
  refine C3_refined_middle_durations [wSeg1, wSeg2, cSegF] 0 7
    ⟨by simp, by norm_num [coversFrom, wSeg1, wSeg2, cSegF]⟩ wSeg2 ?_
  norm_num [merge_segments, filterShortAux, mergeSameAux, segDur, wSeg1, wSeg2,
    cSegF]

/-- C3 counterexample: the code folds short segments *before* merging
equal counts (the spec's order gives a different result), and the final
segment survives even when shorter than 1.0 s, so the output can contain
a non-first sub-1.0 s segment. -/
theorem C3_refiner_counterexample :
    (merge_segments [cSegA, cSegB, cSegC]).length = 1 ∧
      (spec_order_refine [cSegA, cSegB, cSegC]).length = 2 ∧
      merge_segments [cSegD, cSegE] = [cSegD, cSegE] ∧
      segDur cSegE < 1 := by
  refine ⟨?_, ?_, ?_, by norm_num [segDur, cSegE]⟩
  · norm_num [merge_segments, filterShortAux, mergeSameAux, extendSeg, segDur,
      cSegA, cSegB, cSegC]
  · norm_num [spec_order_refine, specFoldShortAux, mergeSameAux, extendSeg,
      segDur, cSegA, cSegB, cSegC]
  · norm_num [merge_segments, filterShortAux, mergeSameAux, segDur, cSegD, cSegE]

/- ============================================================
   Theorems: dual-face crop geometry (claims C4, C5)
   ============================================================ -/

/-- C4: when fewer than 50% of a segment's two-face frames pass the
`size_ratio >= 0.5` validation, `_process_dual_face_crop` falls back to
the single/default crop and never emits dual geometry. -/
theorem C4_dual_guard_demotes (face_positions : List (List FaceObs))
    (W H : ℤ)
    (h : ((dualValidFrames face_positions).length : ℚ) <
      ((dualFaceFrames face_positions).length : ℚ) * (1 / 2)) :
    (process_dual_face_crop face_positions W H).mode = CropMode.single := by
  simp only [process_dual_face_crop]
  by_cases hempty : (dualFaceFrames face_positions).isEmpty
  · rw [if_pos hempty]
    rfl
  · rw [if_neg hempty, if_pos h]
    rfl

/-- Witness for C4: one frame whose two faces have size ratio 0.3. -/
theorem C4_dual_guard_demotes_witness :
    (process_dual_face_crop [[cFaceSmall, cFaceBig]] 1920 1080).mode =
      CropMode.single := by
  refine C4_dual_guard_demotes [[cFaceSmall, cFaceBig]] 1920 1080 ?_
  norm_num [dualValidFrames, dualFaceFrames, frameSizeRatioOK, sizeRatio,
    List.filter, cFaceSmall, cFaceBig]

/-- Sums of right edges split into left edges plus widths. -/
theorem sum_rbx_split :
    ∀ (l : List FaceObs),
      (∀ f ∈ l, f.rightBottom_x = f.topLeft_x + f.width) →
      ((l.map fun f => (f.rightBottom_x : ℚ)).sum =
        (l.map fun f => (f.topLeft_x : ℚ)).sum +
          (l.map fun f => (f.width : ℚ)).sum)
  | [], _ => by simp
  | f :: l, h => by
    have hf := h f (List.mem_cons_self f l)
    have hrest := sum_rbx_split l fun g hg => h g (List.mem_cons_of_mem f hg)
    simp only [List.map_cons, List.sum_cons, hrest, hf]
    push_cast
    ring

/-- A list of widths all at least 1 averages to at least 1. -/
theorem avg_width_ge_one (l : List FaceObs) (hne : l ≠ [])
    (h : ∀ f ∈ l, 1 ≤ f.width) :
    1 ≤ ((l.map fun f => (f.width : ℚ)).sum) / (l.length : ℚ) := by
  have hlen : (0 : ℚ) < (l.length : ℚ) := by
    have : 0 < l.length := List.length_pos.mpr hne
    exact_mod_cast this
  rw [le_div_iff hlen, one_mul]
  have hsum : ((l.map fun _ => (1 : ℚ)).sum) ≤ (l.map fun f => (f.width : ℚ)).sum := by
    apply List.sum_le_sum
    intro f hf
    exact_mod_cast h f hf
  calc (l.length : ℚ) = (l.map fun _ => (1 : ℚ)).sum := by
        simp [List.sum_map_count_dedup_filter_eq_countP]
    _ ≤ _ := hsum

/-- The padded average box of faces with widths at least 1 is at least 2
pixels wide. -/
theorem calculate_face_crop_box_width (faces : List FaceObs)
    (hne : faces ≠ [])
    (h : ∀ f ∈ faces, 1 ≤ f.width ∧ f.rightBottom_x = f.topLeft_x + f.width) :
    2 ≤ (calculate_face_crop faces).box_width := by
  simp only [calculate_face_crop]
  set n : ℚ := (faces.length : ℚ) with hn
  set tlx : ℚ := ((faces.map fun f => (f.topLeft_x : ℚ)).sum) / n with htlx
  set wbar : ℚ := ((faces.map fun f => (f.width : ℚ)).sum) / n with hwbar
  have hw1 : 1 ≤ wbar := avg_width_ge_one faces hne fun f hf => (h f hf).1
  have hrb : ((faces.map fun f => (f.rightBottom_x : ℚ)).sum) / n = tlx + wbar := by
    rw [sum_rbx_split faces fun f hf => (h f hf).2, add_div]
  rw [hrb]
  have h1 := (pyInt_bounds (tlx + wbar + wbar)).1
  have h2 := (pyInt_bounds (tlx - wbar)).2
  have : (1 : ℚ) < ((pyInt (tlx + wbar + wbar) - pyInt (tlx - wbar) : ℤ) : ℚ) := by
    push_cast
    linarith
  have : (1 : ℤ) < pyInt (tlx + wbar + wbar) - pyInt (tlx - wbar) := by
    exact_mod_cast this
  omega

/-- Truncation stays strictly below any integer strictly above a
nonnegative argument. -/
theorem pyInt_lt_of_lt {q : ℚ} {z : ℤ} (hq : 0 ≤ q) (h : q < (z : ℚ)) :
    pyInt q < z := by
  have h1 : ((pyInt q : ℤ) : ℚ) < (z : ℚ) := lt_of_le_of_lt (pyInt_le hq) h
  exact_mod_cast h1

/-- The 9:8 conforming-and-shrinking chain yields a size that is exactly
conformed (one of the two floor relations) and fits the source. -/
theorem conformDualSize_spec (w0 W H : ℤ) (hw : 0 < w0) (hW : 0 < W)
    (hH : 0 < H) :
    ∀ fw fh, conformDualSize w0 W H = (fw, fh) →
      (fh = pyInt ((fw : ℚ) * 8 / 9) ∨ fw = pyInt ((fh : ℚ) * 9 / 8)) ∧
        fw ≤ W ∧ fh ≤ H := by
  intro fw fh heq
  have hw0 : (0 : ℚ) < (w0 : ℚ) := by exact_mod_cast hw
  have hH0 : (0 : ℚ) < (H : ℚ) := by exact_mod_cast hH
  have h0le : ((pyInt ((w0 : ℚ) * 8 / 9) : ℤ) : ℚ) ≤ (w0 : ℚ) * 8 / 9 :=
    pyInt_le (by positivity)
  have h0lt : pyInt ((w0 : ℚ) * 8 / 9) < w0 :=
    pyInt_lt_of_lt (by positivity) (by linarith)
  simp only [conformDualSize] at heq
  rw [if_neg (not_lt.mpr (le_of_lt h0lt))] at heq
  by_cases hc1 : W < w0
  · simp only [if_pos hc1] at heq
    have hWle : ((pyInt ((W : ℚ) * 8 / 9) : ℤ) : ℚ) ≤ (W : ℚ) * 8 / 9 :=
      pyInt_le (by positivity)
    by_cases hc2 : H < pyInt ((W : ℚ) * 8 / 9)
    · rw [if_pos hc2] at heq
      injection heq with e1 e2
      subst e1
      subst e2
      refine ⟨Or.inr rfl, ?_, le_refl H⟩
      have hHW : ((H : ℤ) : ℚ) < (W : ℚ) * 8 / 9 := by
        have : ((H : ℤ) : ℚ) < ((pyInt ((W : ℚ) * 8 / 9) : ℤ) : ℚ) := by
          exact_mod_cast hc2
        linarith
      exact pyInt_lt_of_lt (by positivity) (by linarith) |>.le
    · rw [if_neg hc2] at heq
      injection heq with e1 e2
      subst e1
      subst e2
      exact ⟨Or.inl rfl, le_refl W, not_lt.mp hc2⟩
  · simp only [if_neg hc1] at heq
    by_cases hc2 : H < pyInt ((w0 : ℚ) * 8 / 9)
    · rw [if_pos hc2] at heq
      injection heq with e1 e2
      subst e1
      subst e2
      refine ⟨Or.inr rfl, ?_, le_refl H⟩
      have hWq : (w0 : ℚ) ≤ (W : ℚ) := by exact_mod_cast not_lt.mp hc1
      have hHw : ((H : ℤ) : ℚ) < (w0 : ℚ) * 8 / 9 := by
        have : ((H : ℤ) : ℚ) < ((pyInt ((w0 : ℚ) * 8 / 9) : ℤ) : ℚ) := by
          exact_mod_cast hc2
        linarith
      exact pyInt_lt_of_lt (by positivity) (by linarith) |>.le
    · rw [if_neg hc2] at heq
      injection heq with e1 e2
      subst e1
      subst e2
      exact ⟨Or.inl rfl, not_lt.mp hc1, not_lt.mp hc2⟩

/-- A validated dual frame is one of the input frames and has exactly two
faces. -/
theorem mem_dualValidFrames {face_positions : List (List FaceObs)}
    {frame : List FaceObs} (h : frame ∈ dualValidFrames face_positions) :
    frame ∈ face_positions ∧ frame.length = 2 := by
  have h1 := List.mem_filter.mp h
  have h2 := List.mem_filter.mp h1.1
  exact ⟨h2.1, by simpa using h2.2⟩

/-- A left face comes from one of the frames. -/
theorem mem_of_mem_leftFaces {frames : List (List FaceObs)} {f : FaceObs}
    (h : f ∈ leftFaces frames) : ∃ fr ∈ frames, f ∈ fr := by
  obtain ⟨fr, hfr, hlf⟩ := List.mem_filterMap.mp h
  refine ⟨fr, hfr, ?_⟩
  match fr, hlf with
  | [a, b], hlf =>
    simp only [leftFace, Option.some_inj] at hlf
    subst hlf
    by_cases hab : b.topLeft_x < a.topLeft_x
    · simp [if_pos hab]
    · simp [if_neg hab]

/-- A right face comes from one of the frames. -/
theorem mem_of_mem_rightFaces {frames : List (List FaceObs)} {f : FaceObs}
    (h : f ∈ rightFaces frames) : ∃ fr ∈ frames, f ∈ fr := by
  obtain ⟨fr, hfr, hlf⟩ := List.mem_filterMap.mp h
  refine ⟨fr, hfr, ?_⟩
  match fr, hlf with
  | [a, b], hlf =>
    simp only [rightFace, Option.some_inj] at hlf
    subst hlf
    by_cases hab : b.topLeft_x < a.topLeft_x
    · simp [if_pos hab]
    · simp [if_neg hab]

/-- Over two-face frames the left-face extraction drops nothing. -/
theorem leftFaces_ne_nil {frames : List (List FaceObs)} (hne : frames ≠ [])
    (h2 : ∀ fr ∈ frames, fr.length = 2) : leftFaces frames ≠ [] := by
  match frames, hne with
  | fr :: rest, _ =>
    have hlen := h2 fr (List.mem_cons_self fr rest)
    match fr, hlen with
    | [a, b], _ =>
      simp [leftFaces, List.filterMap_cons, leftFace]

/-- Over two-face frames the right-face extraction drops nothing. -/
theorem rightFaces_ne_nil {frames : List (List FaceObs)} (hne : frames ≠ [])
    (h2 : ∀ fr ∈ frames, fr.length = 2) : rightFaces frames ≠ [] := by
  match frames, hne with
  | fr :: rest, _ =>
    have hlen := h2 fr (List.mem_cons_self fr rest)
    match fr, hlen with
    | [a, b], _ =>
      simp [rightFaces, List.filterMap_cons, rightFace]

/-- C5 (amended): every dual crop emitted by `_process_dual_face_crop` on
geometrically sane faces has its two boxes the same size, conformed by an
exact floor relation (`h = int(w*8/9)` or `w = int(h*9/8)`), and fully
inside the source bounds. -/
theorem C5_dual_box_geometry (face_positions : List (List FaceObs))
    (W H : ℤ) (hW : 0 < W) (hH : 0 < H)
    (hvalid : ∀ frame ∈ face_positions, ∀ f ∈ frame,
      1 ≤ f.width ∧ f.rightBottom_x = f.topLeft_x + f.width) :
    ∀ lf rf sw sh ow oh,
      process_dual_face_crop face_positions W H =
        CropResult.dualCrop lf rf sw sh ow oh →
      (lf.height = pyInt ((lf.width : ℚ) * 8 / 9) ∨
        lf.width = pyInt ((lf.height : ℚ) * 9 / 8)) ∧
      rf.width = lf.width ∧ rf.height = lf.height ∧
      0 ≤ lf.x ∧ lf.x + lf.width ≤ W ∧ 0 ≤ lf.y ∧ lf.y + lf.height ≤ H ∧
      0 ≤ rf.x ∧ rf.x + rf.width ≤ W ∧ 0 ≤ rf.y ∧ rf.y + rf.height ≤ H := by
  intro lf rf sw sh ow oh hres
  simp only [process_dual_face_crop] at hres
  by_cases hempty : (dualFaceFrames face_positions).isEmpty
  · rw [if_pos hempty] at hres
    simp [get_default_crop_position] at hres
  rw [if_neg hempty] at hres
  by_cases hguard : ((dualValidFrames face_positions).length : ℚ) <
      ((dualFaceFrames face_positions).length : ℚ) * (1 / 2)
  · rw [if_pos hguard] at hres
    simp [get_default_crop_position] at hres
  rw [if_neg hguard] at hres
  -- the validated frames are nonempty
  have hdual_pos : 0 < (dualFaceFrames face_positions).length := by
    cases hd : dualFaceFrames face_positions with
    | nil => rw [hd] at hempty; simp at hempty
    | cons a l => simp
  have hvlen : 0 < (dualValidFrames face_positions).length := by
    by_contra hz
    push_neg at hz
    have hv0 : (dualValidFrames face_positions).length = 0 := by omega
    apply hguard
    rw [hv0]
    push_cast
    have : (1 : ℚ) ≤ ((dualFaceFrames face_positions).length : ℚ) := by
      exact_mod_cast hdual_pos
    linarith
  have hvne : dualValidFrames face_positions ≠ [] :=
    List.ne_nil_of_length_pos hvlen
  have hv2 : ∀ fr ∈ dualValidFrames face_positions, fr.length = 2 :=
    fun fr hfr => (mem_dualValidFrames hfr).2
  -- face sanity carries to both extracted sides
  have hleft_faces : ∀ f ∈ leftFaces (dualValidFrames face_positions),
      1 ≤ f.width ∧ f.rightBottom_x = f.topLeft_x + f.width := by
    intro f hf
    obtain ⟨fr, hfr, hffr⟩ := mem_of_mem_leftFaces hf
    exact hvalid fr (mem_dualValidFrames hfr).1 f hffr
  have hright_faces : ∀ f ∈ rightFaces (dualValidFrames face_positions),
      1 ≤ f.width ∧ f.rightBottom_x = f.topLeft_x + f.width := by
    intro f hf
    obtain ⟨fr, hfr, hffr⟩ := mem_of_mem_rightFaces hf
    exact hvalid fr (mem_dualValidFrames hfr).1 f hffr
  have hlbw : 2 ≤ (calculate_face_crop (leftFaces (dualValidFrames face_positions))).box_width :=
    calculate_face_crop_box_width _ (leftFaces_ne_nil hvne hv2) hleft_faces
  have hrbw : 2 ≤ (calculate_face_crop (rightFaces (dualValidFrames face_positions))).box_width :=
    calculate_face_crop_box_width _ (rightFaces_ne_nil hvne hv2) hright_faces
  -- the averaged box width is positive
  set lbw := (calculate_face_crop (leftFaces (dualValidFrames face_positions))).box_width
  set rbw := (calculate_face_crop (rightFaces (dualValidFrames face_positions))).box_width
  have havg : 0 < Int.fdiv (lbw + rbw) 2 := by
    rw [Int.fdiv_eq_ediv _ (by norm_num)]
    have : (1 : ℤ) ≤ (lbw + rbw) / 2 :=
      (Int.le_ediv_iff_mul_le (by norm_num)).mpr (by omega)
    omega
  set fw := (conformDualSize (Int.fdiv (lbw + rbw) 2) W H).1 with hfw
  set fh := (conformDualSize (Int.fdiv (lbw + rbw) 2) W H).2 with hfh
  obtain ⟨hconf, hfwW, hfhH⟩ :=
    conformDualSize_spec (Int.fdiv (lbw + rbw) 2) W H havg hW hH fw fh
      (by rw [hfw, hfh])
  injection hres with e1 e2 e3 e4 e5 e6
  subst e1
  subst e2
  have hxb : (0 : ℤ) ≤ W - fw := by omega
  have hyb : (0 : ℤ) ≤ H - fh := by omega
  have hcl := clampCrop_bounds
    (pyInt ((calculate_face_crop (leftFaces (dualValidFrames face_positions))).center_x -
      ((Int.fdiv fw 2 : ℤ) : ℚ))) (W - fw) hxb
  have hcly := clampCrop_bounds
    (calculate_face_crop (leftFaces (dualValidFrames face_positions))).box_lt_y (H - fh) hyb
  have hcr := clampCrop_bounds
    (pyInt ((calculate_face_crop (rightFaces (dualValidFrames face_positions))).center_x -
      ((Int.fdiv fw 2 : ℤ) : ℚ))) (W - fw) hxb
  have hcry := clampCrop_bounds
    (calculate_face_crop (rightFaces (dualValidFrames face_positions))).box_lt_y (H - fh) hyb
  refine ⟨hconf, rfl, rfl, ?_, ?_, ?_, ?_, ?_, ?_, ?_, ?_⟩ <;> dsimp only <;>
    omega

/-- The dual geometry on one frame of two 20×20 faces in a 1920×1080
source, evaluated. -/
theorem process_dual_concrete :
    process_dual_face_crop [[cFaceL, cFaceR]] 1920 1080 =
      CropResult.dualCrop ⟨280, 290, 60, 53⟩ ⟨380, 290, 60, 53⟩
        1080 960 1080 1920 := by
  norm_num [process_dual_face_crop, dualFaceFrames, dualValidFrames,
    frameSizeRatioOK, sizeRatio, List.filter, calculate_face_crop,
    leftFaces, rightFaces, leftFace, rightFace, List.filterMap,
    conformDualSize, clampCrop, pyInt_of_nonneg, Int.fdiv_eq_ediv,
    cFaceL, cFaceR]

/-- Witness for C5 at the concrete two-face input. -/
theorem C5_dual_box_geometry_witness :
    ((53 : ℤ) = pyInt ((60 : ℚ) * 8 / 9) ∨
        (60 : ℤ) = pyInt ((53 : ℚ) * 9 / 8)) ∧
      (60 : ℤ) = 60 ∧ (53 : ℤ) = 53 ∧
      (0 : ℤ) ≤ 280 ∧ (280 : ℤ) + 60 ≤ 1920 ∧ (0 : ℤ) ≤ 290 ∧
      (290 : ℤ) + 53 ≤ 1080 ∧
      (0 : ℤ) ≤ 380 ∧ (380 : ℤ) + 60 ≤ 1920 ∧ (0 : ℤ) ≤ 290 ∧
      (290 : ℤ) + 53 ≤ 1080 :=
  C5_dual_box_geometry [[cFaceL, cFaceR]] 1920 1080 (by norm_num) (by norm_num)
    (by
      intro frame hframe f hf
      simp only [List.mem_singleton] at hframe
      subst hframe
      simp only [List.mem_cons, List.not_mem_nil, or_false] at hf
      rcases hf with rfl | rfl
      · norm_num [cFaceL]
      · norm_num [cFaceR])
    ⟨280, 290, 60, 53⟩ ⟨380, 290, 60, 53⟩ 1080 960 1080 1920
    process_dual_concrete

/-- C5 counterexample: the emitted 60×53 dual boxes have
`|w/h - 9/8| = 3/424 ≈ 0.0071`, violating the claimed 1e-3 tolerance. -/
theorem C5_ratio_counterexample :
    process_dual_face_crop [[cFaceL, cFaceR]] 1920 1080 =
      CropResult.dualCrop ⟨280, 290, 60, 53⟩ ⟨380, 290, 60, 53⟩
        1080 960 1080 1920 ∧
      ¬ (|(60 : ℚ) / 53 - 9 / 8| < 1 / 1000) :=
  ⟨process_dual_concrete, by
    rw [show (60 : ℚ) / 53 - 9 / 8 = 3 / 424 by norm_num,
      abs_of_pos (by norm_num : (0 : ℚ) < 3 / 424)]
    norm_num⟩

/- ============================================================
   Theorems: zero-face panning (claim C6)
   ============================================================ -/

/-- The pan position never leaves the pixel boundaries. -/
theorem panX_mem (width crop_width : ℤ) (t : ℝ) :
    ((pan_left_boundary_px width : ℤ) : ℝ) ≤ panX width crop_width t ∧
      panX width crop_width t ≤
        ((pan_right_boundary_px width crop_width : ℤ) : ℝ) := by
  have hlr : pan_left_boundary_px width ≤ pan_right_boundary_px width crop_width :=
    le_max_left _ _
  refine ⟨le_max_left _ _, ?_⟩
  exact max_le (by exact_mod_cast hlr) (min_le_right _ _)

/-- C6 (amended): the panning sweep is periodic with the configured
8-second cycle, and every generated x position stays within the code's
pixel boundaries `[int(0.15·W), max(int(0.15·W), min(int(0.85·W) − cw, W − cw))]`. -/
theorem C6_panning_periodic_and_bounded (width crop_width : ℤ)
    (duration fps : ℝ) :
    (∀ t : ℝ, panX width crop_width (t + PAN_CYCLE_DURATION) =
      panX width crop_width t) ∧
    ∀ p ∈ generate_panning_positions duration fps width crop_width,
      ((pan_left_boundary_px width : ℤ) : ℝ) ≤ p.2 ∧
        p.2 ≤ ((pan_right_boundary_px width crop_width : ℤ) : ℝ) := by
  constructor
  · intro t
    have hsin :
        Real.sin (2 * Real.pi * (t + PAN_CYCLE_DURATION) / PAN_CYCLE_DURATION -
            Real.pi / 2) =
          Real.sin (2 * Real.pi * t / PAN_CYCLE_DURATION - Real.pi / 2) := by
      simp only [PAN_CYCLE_DURATION]
      rw [show 2 * Real.pi * (t + 8) / 8 - Real.pi / 2 =
        2 * Real.pi * t / 8 - Real.pi / 2 + 2 * Real.pi by ring]
      exact Real.sin_add_two_pi _
    simp only [panX]
    rw [hsin]
  · intro p hp
    obtain ⟨frame, _, rfl⟩ := List.mem_map.mp hp
    exact panX_mem width crop_width _

/-- C6 counterexample: with `W = 1930` the left pixel boundary is
`int(0.15·1930) = 289`, and the very first generated position sits at
x = 289 < 0.15·1930 = 289.5 — below the claimed real-valued band. -/
theorem C6_lower_bound_counterexample :
    pan_left_boundary_px 1930 = 289 ∧
      panX 1930 100 0 = 289 ∧
      ((0 : ℝ), (289 : ℝ)) ∈ generate_panning_positions 16 30 1930 100 ∧
      (289 : ℝ) < (15 / 100) * 1930 := by
  have hl : pan_left_boundary_px 1930 = 289 := by
    norm_num [pan_left_boundary_px, PAN_LEFT_BOUNDARY, pyInt_of_nonneg]
  have hr : pan_right_boundary_px 1930 100 = 1540 := by
    norm_num [pan_right_boundary_px, pan_left_boundary_px, PAN_LEFT_BOUNDARY,
      PAN_RIGHT_BOUNDARY, pyInt_of_nonneg, min_def, max_def]
  have hx : panX 1930 100 0 = 289 := by
    simp only [panX, hl, hr]
    have hang : 2 * Real.pi * 0 / PAN_CYCLE_DURATION - Real.pi / 2 =
        -(Real.pi / 2) := by
      simp [PAN_CYCLE_DURATION]
    rw [hang, Real.sin_neg, Real.sin_pi_div_two]
    norm_num [min_def, max_def]
  have hn : pyIntR ((16 : ℝ) * 30) = 480 := by
    rw [pyIntR, if_neg (by norm_num)]
    norm_num
  refine ⟨hl, hx, ?_, by norm_num⟩
  rw [generate_panning_positions, hn]
  refine List.mem_map.mpr ⟨0, ?_, ?_⟩
  · rw [List.mem_range]
    decide
  · norm_num [hx]

/- ============================================================
   Theorems: the zero-face sentinel rule (claim C7)
   ============================================================ -/

/-- C7: the smooth single-pass conversion hands off to the panning path
exactly when the keyframe set is two samples both at `width // 2` (the
no-detection fallback signature); any other keyframe set is spline
smoothed.  The empty detection timeline produces that signature. -/
theorem C7_sentinel_rule (positions : List (ℚ × ℤ)) (width : ℤ)
    (total_frames : ℕ) (fps : ℚ) :
    (smoothPathChoice positions width = SmoothPath.panning ↔
      ∃ p q : ℚ × ℤ, positions = [p, q] ∧ p.2 = Int.fdiv width 2 ∧
        q.2 = Int.fdiv width 2) ∧
    smoothPathChoice (timelinePositions [] width total_frames fps) width =
      SmoothPath.panning := by
  constructor
  · constructor
    · intro h
      by_cases hz : isZeroFace positions width = true
      · match positions, hz with
        | [p, q], hz =>
          simp only [isZeroFace, Bool.and_eq_true, beq_iff_eq] at hz
          exact ⟨p, q, rfl, hz.1, hz.2⟩
      · rw [smoothPathChoice, ENABLE_ZERO_FACE_PANNING, Bool.and_true,
          if_neg hz] at h
        exact absurd h (by simp)
    · rintro ⟨p, q, rfl, hp, hq⟩
      simp [smoothPathChoice, isZeroFace, ENABLE_ZERO_FACE_PANNING, hp, hq]
  · simp [smoothPathChoice, timelinePositions, fallbackPositions, isZeroFace,
      ENABLE_ZERO_FACE_PANNING]

/- ============================================================
   Theorems: undersized sources (claim C8)
   ============================================================ -/

/-- C8 (amended): when the source is narrower than the minimum viable
9:16 crop, the engine does not fail closed — `_get_default_crop_position`
clamps x to 0 and returns a window of width `int(height·9/16)` that
extends past the right source bound. -/
theorem C8_small_source_emits_oob (W H : ℤ) (position : DefaultPos)
    (hsmall : W < pyInt ((H : ℚ) * 9 / 16)) :
    get_default_crop_position W H position =
        CropResult.singleCrop ⟨0, 0, pyInt ((H : ℚ) * 9 / 16), H⟩ false ∧
      W < 0 + pyInt ((H : ℚ) * 9 / 16) := by
  have hb : W - pyInt ((H : ℚ) * 9 / 16) ≤ 0 := by omega
  have hcl : ∀ v : ℤ, clampCrop v (W - pyInt ((H : ℚ) * 9 / 16)) = 0 := by
    intro v
    rw [clampCrop]
    exact max_eq_left (le_trans (min_le_right _ _) hb)
  constructor
  · simp only [get_default_crop_position]
    rw [hcl]
  · omega

/-- Witness for C8: a 100×1000 source, whose minimum 9:16 crop is 562 px
wide. -/
theorem C8_small_source_emits_oob_witness :
    get_default_crop_position 100 1000 DefaultPos.left =
        CropResult.singleCrop ⟨0, 0, pyInt ((1000 : ℚ) * 9 / 16), 1000⟩ false ∧
      (100 : ℤ) < 0 + pyInt ((1000 : ℚ) * 9 / 16) :=
  C8_small_source_emits_oob 100 1000 DefaultPos.left
    (by norm_num [pyInt_of_nonneg])

/-- C8 counterexample: at 100×1000 the engine raises no "source too
small" error — it returns the crop {x=0, w=562} whose right edge exceeds
the 100 px source. -/
theorem C8_no_fail_closed_counterexample :
    get_default_crop_position 100 1000 DefaultPos.left =
        CropResult.singleCrop ⟨0, 0, 562, 1000⟩ false ∧
      ¬ (0 + 562 ≤ (100 : ℤ)) := by
  constructor
  · norm_num [get_default_crop_position, clampCrop, pyInt_of_nonneg,
      Int.fdiv_eq_ediv, min_def, max_def]
  · norm_num

/- ============================================================
   Theorems: temp-directory cleanup (claim C9)
   ============================================================ -/

/-- C9 (code behavior): the dynamic pipeline's `finally` always removes
its temp directory, but the smooth single-pass and stacked bodies only
reach their `rmtree` after every transcode step succeeds — a failing
transcode leaves the directory behind. -/
theorem C9_temp_cleanup :
    (convert_to_reels_smooth_outcome (fun _ => false)).2 = false ∧
      (convert_to_stacked_outcome (fun _ => false)).2 = false ∧
      (convert_to_reels_smooth_outcome (fun _ => true)).2 = true ∧
      (convert_to_stacked_outcome (fun _ => true)).2 = true ∧
      ∀ (ok : ℕ → Bool) (numSegments : ℕ),
        (convert_to_reels_dynamic_outcome ok numSegments).2 = true :=
  ⟨rfl, rfl, rfl, rfl, fun _ _ => rfl⟩

/- ============================================================
   Theorems: the dual-size demotion policy (claim C10)
   ============================================================ -/

/-- C10: when exactly two detections survive the per-frame filters but
their size ratio is below 0.5, the frame's face count is recomputed from
2 to 1 while both observations stay in the segment's observation list,
and any later single-face centering for that frame uses the first-listed
observation (detector output order). -/
theorem C10_dual_demotion_policy (dets : List Detection) (W H : ℤ)
    (fps : ℚ) (f1 f2 : FaceObs) (tail : List (List FaceObs))
    (segDuration : ℚ)
    (hf : filterFrame W H dets = [f1, f2])
    (hr : sizeRatio f1.width f2.width < 1 / 2) :
    frameFaceCount (filterFrame W H dets) = 1 ∧
      (openOn (frameSample (fun _ => dets) W H fps 0)).faces = [[f1, f2]] ∧
      (segmentFacePositions ([f1, f2] :: tail) segDuration).head?.map
          Prod.snd =
        some (((f1.topLeft_x : ℚ) + (f1.rightBottom_x : ℚ)) / 2) := by
  refine ⟨?_, ?_, ?_⟩
  · rw [hf]
    simp only [frameFaceCount]
    rw [if_pos hr]
  · simp [openOn, frameSample, hf, initFaces]
  · rw [segmentFacePositions,
      show ([f1, f2] :: tail).enum = (0, [f1, f2]) :: tail.enumFrom 1 from rfl,
      List.filterMap_cons]
    simp

/-- Witness for C10: a 30 px face listed before a 100 px face (ratio
0.3); the extracted center comes from the smaller, first-listed face. -/
theorem C10_dual_demotion_policy_witness :
    frameFaceCount (filterFrame 1000 300 [cDetSmall, cDetBig]) = 1 ∧
      (openOn (frameSample (fun _ => [cDetSmall, cDetBig]) 1000 300 1 0)).faces =
        [[toFaceObs cDetSmall, toFaceObs cDetBig]] ∧
      (segmentFacePositions
          ([toFaceObs cDetSmall, toFaceObs cDetBig] :: []) 2).head?.map
          Prod.snd =
        some ((((toFaceObs cDetSmall).topLeft_x : ℚ) +
          ((toFaceObs cDetSmall).rightBottom_x : ℚ)) / 2) :=
  C10_dual_demotion_policy [cDetSmall, cDetBig] 1000 300 1
    (toFaceObs cDetSmall) (toFaceObs cDetBig) [] 2
    (by
      norm_num [filterFrame, passesFilters, minFaceSize, edgeMargin,
        pyInt_of_nonneg, List.filter, toFaceObs, cDetSmall, cDetBig,
        Int.fdiv_eq_ediv])
    (by norm_num [sizeRatio, toFaceObs, cDetSmall, cDetBig, min_def, max_def])

end ReelsProc
